import Mathlib

/-!
Shallow embedding of the job-leasing core of the rdpc service.

The store is a SQLite table `queries`; we model it as a `List Query` in
table-scan (rowid) order.  `id` is the integer primary key, so a
well-formed table is strictly increasing in `id` (`WF`).

Each gRPC handler that touches the `queries` table is translated to a
pure Lean function.  The handlers read the clock internally via
`time.Now()`; that clock sample appears here as an explicit `now`
parameter (seconds since the epoch, as `.Unix()` yields).  The claim
handlers (`GetInfoQueries`, `GetPriceQueries`) each execute one atomic
SQL statement

  UPDATE queries SET status = 'in_progress', started_at = ?
  WHERE id IN (SELECT id FROM queries
               WHERE (status = 'queued' OR
                      (status = 'in_progress' AND started_at < ?))
                 AND next_run < ? AND run_once = <pool>
               ORDER BY id LIMIT 4)
  RETURNING id, item_id, realm, league, search_query, update_interval,
            next_run, status, started_at, run_once

with parameters `now`, `now - 300` (five-minute lease) and `now`; the
returned rows are the post-mutation rows, emitted in table-scan order.
`UpdateNextRun` and `DeleteQuery` run a plain `UPDATE`/`DELETE` via
`Exec` and return the gRPC success value without inspecting the number
of affected rows.
-/

namespace RDPC

/-- A row of the `queries` table, with the columns listed in the
`RETURNING` clause of the claim statements. -/
structure Query where
  id : Int
  item_id : String
  realm : String
  league : String
  search_query : String
  update_interval : Int
  next_run : Int
  status : String
  started_at : Int
  run_once : Bool
deriving DecidableEq

/-- The five-minute lease window, in seconds:
`time.Now().Add(-5 * time.Minute)` is `now - 300`. -/
def LEASE_DURATION : Int := 300

/-- The SQL eligibility predicate of the claim subquery:
`(status = 'queued' OR (status = 'in_progress' AND started_at < lease))
AND next_run < now AND run_once = ro`, with `lease = now - 300`. -/
def eligible (ro : Bool) (now : Int) (q : Query) : Bool :=
  (q.status == "queued" ||
    (q.status == "in_progress" && decide (q.started_at < now - LEASE_DURATION))) &&
  decide (q.next_run < now) && (q.run_once == ro)

/-- The subquery `SELECT id FROM queries WHERE eligible ORDER BY id LIMIT 4`. -/
def selectIds (ro : Bool) (now : Int) (s : List Query) : List Int :=
  (List.insertionSort (fun a b => a ≤ b)
    ((s.filter (eligible ro now)).map (fun q => q.id))).take 4

/-- The `SET status = 'in_progress', started_at = now` clause applied to one row. -/
def claimStamp (now : Int) (q : Query) : Query :=
  { q with status := "in_progress", started_at := now }

/-- Effect of the claim `UPDATE` on one row: stamped iff its id is in the
selected id set. -/
def applyClaim (ids : List Int) (now : Int) (q : Query) : Query :=
  if ids.contains q.id then claimStamp now q else q

/-- One atomic claim statement over pool `ro`: mutates the selected rows
and returns (returned rows in table order, post state). -/
def runClaim (ro : Bool) (now : Int) (s : List Query) : List Query × List Query :=
  let ids := selectIds ro now s
  let s2 := s.map (applyClaim ids now)
  (s2.filter (fun q => ids.contains q.id), s2)

/-- `GetInfoQueries`: claim over the one-shot pool (`run_once = true`). -/
def GetInfoQueries (now : Int) (s : List Query) : List Query × List Query :=
  runClaim true now s

/-- `GetPriceQueries`: claim over the recurring pool (`run_once = false`). -/
def GetPriceQueries (now : Int) (s : List Query) : List Query × List Query :=
  runClaim false now s

/-- Result sent back to the gRPC caller by the mutation handlers that the
spec describes as `success | NotFound`. -/
inductive RpcResult where
  | ok
  | notFound
deriving DecidableEq

/-- `UpdateNextRun`: `UPDATE queries SET next_run = now + update*3600,
status = 'queued', started_at = 0 WHERE id = qid AND league = league`.
The handler ignores the affected-row count and always answers `ok`
(`&pb.Empty{}`) when the statement executes. -/
def UpdateNextRun (now qid : Int) (league : String) (update : Int)
    (s : List Query) : RpcResult × List Query :=
  (RpcResult.ok,
    s.map (fun q =>
      if q.id == qid && q.league == league then
        { q with next_run := now + update * 3600, status := "queued", started_at := 0 }
      else q))

/-- `DeleteQuery`: `DELETE FROM queries WHERE id = qid`; always answers `ok`. -/
def DeleteQuery (qid : Int) (s : List Query) : RpcResult × List Query :=
  (RpcResult.ok, s.filter (fun q => !(q.id == qid)))

/-- `InsertQuery` appends a row with the caller-supplied columns.
Modelled from the spec: the SQL `INSERT` omits `id`, `status` and
`started_at`; the table schema (not in the sources) assigns the next
rowid and, per the spec's lifecycle ("insert with initial
`status=queued`, `started_at=0`"), defaults `status` to `'queued'` and
`started_at` to `0`.  The fresh id appears as the parameter `newId`. -/
def InsertQuery (newId : Int) (item_id realm league sq : String)
    (update nr : Int) (ro : Bool) (s : List Query) : List Query :=
  s ++ [⟨newId, item_id, realm, league, sq, update, nr, "queued", 0, ro⟩]

/-- Well-formed table: strictly increasing primary key in scan order. -/
def WF (s : List Query) : Prop :=
  s.Pairwise (fun a b => a.id < b.id)

/-- The documented state invariant: an unleased (queued) row has
`started_at = 0`. -/
def Inv (s : List Query) : Prop :=
  ∀ q ∈ s, q.status = "queued" → q.started_at = 0

/-- Concrete rows for the closed instances below: a due one-shot job,
a leased recurring job, and a not-yet-due one-shot job. -/
def jobA : Query := ⟨1, "itemA", "poe2", "Standard", "qa", 24, 500, "queued", 0, true⟩

def jobB : Query := ⟨2, "itemB", "poe2", "Standard", "qb", 12, 500, "in_progress", 100, false⟩

def jobC : Query := ⟨3, "itemC", "poe2", "Ancestor", "qc", 6, 2000, "queued", 0, true⟩

def store0 : List Query := [jobA, jobB, jobC]

end RDPC

namespace RDPC

/-! ### Helper lemmas about the claim statement -/

theorem applyClaim_id (ids : List Int) (now : Int) (q : Query) :
    (applyClaim ids now q).id = q.id := by
  unfold applyClaim claimStamp
  split <;> rfl

theorem applyClaim_of_contains {ids : List Int} {q : Query} (now : Int)
    (h : ids.contains q.id = true) : applyClaim ids now q = claimStamp now q := by
  have hm : q.id ∈ ids := by simpa using h
  simp [applyClaim, hm]

theorem applyClaim_of_not_contains {ids : List Int} {q : Query} (now : Int)
    (h : ids.contains q.id = false) : applyClaim ids now q = q := by
  have hm : q.id ∉ ids := by simpa using h
  simp [applyClaim, hm]

/-- Filtering by a predicate on the (preserved) id commutes with the
claim mutation map. -/
theorem filter_contains_map_applyClaim (ids js : List Int) (now : Int) (s : List Query) :
    (s.map (applyClaim ids now)).filter (fun q => js.contains q.id) =
      (s.filter (fun q => js.contains q.id)).map (applyClaim ids now) := by
  induction s with
  | nil => rfl
  | cons a t ih =>
    by_cases h : js.contains a.id = true
    · simp only [List.map_cons, List.filter_cons, applyClaim_id, h, if_true, ih]
    · simp only [Bool.not_eq_true] at h
      simp only [List.map_cons, List.filter_cons, applyClaim_id, h]
      exact ih

theorem mem_selectIds {ro : Bool} {now : Int} {s : List Query} {j : Int}
    (h : j ∈ selectIds ro now s) :
    ∃ r ∈ s, eligible ro now r = true ∧ r.id = j := by
  have h1 : j ∈ List.insertionSort (fun a b => a ≤ b)
      ((s.filter (eligible ro now)).map (fun q => q.id)) :=
    List.mem_of_mem_take h
  have h2 : j ∈ (s.filter (eligible ro now)).map (fun q => q.id) :=
    (List.perm_insertionSort _ _).mem_iff.mp h1
  obtain ⟨r, hr, hid⟩ := List.mem_map.mp h2
  obtain ⟨hrs, helig⟩ := List.mem_filter.mp hr
  exact ⟨r, hrs, helig, hid⟩

/-- Every selected id is the id of a returned row. -/
theorem selectIds_subset_returned (ro : Bool) (now : Int) (s : List Query) {j : Int}
    (h : j ∈ selectIds ro now s) :
    j ∈ (runClaim ro now s).1.map (fun q => q.id) := by
  obtain ⟨r, hrs, _helig, hid⟩ := mem_selectIds h
  refine List.mem_map.mpr ⟨applyClaim (selectIds ro now s) now r, ?_, by
    rw [applyClaim_id, hid]⟩
  refine List.mem_filter.mpr ⟨List.mem_map_of_mem _ hrs, ?_⟩
  rw [applyClaim_id, hid]
  exact List.elem_iff.mpr h

/-- Every returned row's id is a selected id. -/
theorem returned_subset_selectIds (ro : Bool) (now : Int) (s : List Query) {j : Int}
    (h : j ∈ (runClaim ro now s).1.map (fun q => q.id)) :
    j ∈ selectIds ro now s := by
  obtain ⟨q, hq, hid⟩ := List.mem_map.mp h
  have hc := (List.mem_filter.mp hq).2
  rw [hid] at hc
  exact List.elem_iff.mp hc

/-- On a table with strictly increasing ids, filtering by membership in the
ids of a sublist recovers exactly that sublist. -/
theorem filter_mem_ids_of_sublist {t s : List Query} (ht : t.Sublist s)
    (hs : s.Pairwise (fun a b => a.id < b.id)) :
    s.filter (fun q => (t.map (fun x => x.id)).contains q.id) = t := by
  induction ht with
  | slnil => rfl
  | @cons l₁ l₂ a h ih =>
    rw [List.pairwise_cons] at hs
    obtain ⟨ha, hl₂⟩ := hs
    have hna : a.id ∉ l₁.map (fun x => x.id) := by
      intro hmem
      obtain ⟨x, hx, hxe⟩ := List.mem_map.mp hmem
      have := ha x (h.subset hx)
      omega
    have hcf : ((l₁.map (fun x => x.id)).contains a.id) = false := by simpa using hna
    simp only [List.filter_cons, hcf, Bool.false_eq_true, if_false]
    exact ih hl₂
  | @cons₂ l₁ l₂ a h ih =>
    rw [List.pairwise_cons] at hs
    obtain ⟨ha, hl₂⟩ := hs
    have hct : (((a :: l₁).map (fun x => x.id)).contains a.id) = true := by
      simp
    simp only [List.filter_cons, hct, if_true]
    congr 1
    have hcongr : ∀ x ∈ l₂,
        (((a :: l₁).map (fun y => y.id)).contains x.id) =
          ((l₁.map (fun y => y.id)).contains x.id) := by
      intro x hx
      have hne : x.id ≠ a.id := by
        have := ha x hx
        omega
      simp [hne]
    rw [List.filter_congr hcongr]
    exact ih hl₂

/-- Under `WF`, the eligible ids are already sorted ascending, so the
subquery yields the ids of the first four eligible rows in table order. -/
theorem selectIds_eq {s : List Query} (ro : Bool) (now : Int) (h : WF s) :
    selectIds ro now s = ((s.filter (eligible ro now)).take 4).map (fun q => q.id) := by
  unfold selectIds
  have hpw : (s.filter (eligible ro now)).Pairwise (fun a b => a.id < b.id) :=
    List.Pairwise.sublist (List.filter_sublist s) h
  have hids : ((s.filter (eligible ro now)).map (fun q => q.id)).Pairwise
      (fun a b => a ≤ b) := by
    rw [List.pairwise_map]
    exact hpw.imp (fun hab => le_of_lt hab)
  rw [List.Sorted.insertionSort_eq hids, ← List.map_take]

/-- Main characterisation of the claim statement on a well-formed table:
it returns exactly the first four eligible rows of the pool, stamped. -/
theorem runClaim_fst_eq {s : List Query} (ro : Bool) (now : Int) (h : WF s) :
    (runClaim ro now s).1 = ((s.filter (eligible ro now)).take 4).map (claimStamp now) := by
  have hsel := selectIds_eq ro now h
  show (s.map (applyClaim (selectIds ro now s) now)).filter
      (fun q => (selectIds ro now s).contains q.id) = _
  rw [filter_contains_map_applyClaim]
  have hsub : ((s.filter (eligible ro now)).take 4).Sublist s :=
    (List.take_sublist _ _).trans (List.filter_sublist s)
  rw [hsel, filter_mem_ids_of_sublist hsub h]
  apply List.map_congr_left
  intro q hq
  apply applyClaim_of_contains
  simpa using List.mem_map_of_mem (fun x => x.id) hq

theorem runClaim_snd_length (ro : Bool) (now : Int) (s : List Query) :
    (runClaim ro now s).2.length = s.length := by
  simp [runClaim]

theorem runClaim_snd_getElem (ro : Bool) (now : Int) (s : List Query) (i : Nat) :
    (runClaim ro now s).2[i]? = (s[i]?).map (applyClaim (selectIds ro now s) now) := by
  simp [runClaim]

theorem eligible_next_run {ro : Bool} {now : Int} {q : Query}
    (h : eligible ro now q = true) : q.next_run < now := by
  unfold eligible at h
  simp only [Bool.and_eq_true, decide_eq_true_eq] at h
  exact h.1.2

theorem eligible_run_once {ro : Bool} {now : Int} {q : Query}
    (h : eligible ro now q = true) : q.run_once = ro := by
  unfold eligible at h
  simp only [Bool.and_eq_true, beq_iff_eq] at h
  exact h.2

theorem eligible_status {ro : Bool} {now : Int} {q : Query}
    (h : eligible ro now q = true) :
    q.status = "queued" ∨
      (q.status = "in_progress" ∧ q.started_at < now - LEASE_DURATION) := by
  unfold eligible at h
  simp only [Bool.and_eq_true, Bool.or_eq_true, beq_iff_eq, decide_eq_true_eq] at h
  exact h.1.1

/-- Returned rows are exactly the marked rows: status and lease stamp. -/
theorem runClaim_returned_marked (ro : Bool) (now : Int) (s : List Query) :
    ∀ q ∈ (runClaim ro now s).1,
      q.status = "in_progress" ∧ q.started_at = now ∧ q ∈ (runClaim ro now s).2 := by
  intro q hq
  have hq2 : q ∈ (runClaim ro now s).2 := List.mem_of_mem_filter hq
  obtain ⟨hmem, hcont⟩ := List.mem_filter.mp hq
  obtain ⟨r, hr, hqr⟩ := List.mem_map.mp hmem
  have hcr : (selectIds ro now s).contains r.id = true := by
    rw [← applyClaim_id (selectIds ro now s) now r, hqr]
    exact hcont
  have hq3 : q = claimStamp now r := by
    rw [← hqr, applyClaim_of_contains now hcr]
  exact ⟨by rw [hq3]; rfl, by rw [hq3]; rfl, hq2⟩

/-- A row whose id was not returned keeps its exact pre-state. -/
theorem runClaim_unselected_unchanged (ro : Bool) (now : Int) (s : List Query)
    (i : Nat) (hi : i < s.length)
    (h : s[i].id ∉ (runClaim ro now s).1.map (fun q => q.id)) :
    (runClaim ro now s).2[i]? = some s[i] := by
  have hni : s[i].id ∉ selectIds ro now s := fun hmem =>
    h (selectIds_subset_returned ro now s hmem)
  have hcf : (selectIds ro now s).contains s[i].id = false := by simpa using hni
  rw [runClaim_snd_getElem, List.getElem?_eq_getElem hi]
  simp [applyClaim_of_not_contains now hcf]

/-- A returned row differs from a pre-state row only in `status` and
`started_at`. -/
theorem runClaim_returned_fields (ro : Bool) (now : Int) (s : List Query) :
    ∀ q ∈ (runClaim ro now s).1, ∃ r, r ∈ s ∧
      q.id = r.id ∧ q.item_id = r.item_id ∧ q.realm = r.realm ∧ q.league = r.league ∧
      q.search_query = r.search_query ∧ q.update_interval = r.update_interval ∧
      q.next_run = r.next_run ∧ q.run_once = r.run_once := by
  intro q hq
  obtain ⟨hmem, _⟩ := List.mem_filter.mp hq
  obtain ⟨r, hr, hqr⟩ := List.mem_map.mp hmem
  refine ⟨r, hr, ?_⟩
  rw [← hqr]
  unfold applyClaim claimStamp
  split <;> simp

theorem nodup_ids {s : List Query} (h : WF s) : (s.map (fun q => q.id)).Nodup := by
  unfold WF at h
  exact List.Pairwise.map (fun q : Query => q.id) (fun _ _ hab => ne_of_lt hab) h

/-- On a well-formed table ids identify rows. -/
theorem eq_of_mem_of_id_eq {s : List Query} (h : WF s) {a b : Query}
    (ha : a ∈ s) (hb : b ∈ s) (hab : a.id = b.id) : a = b :=
  List.inj_on_of_nodup_map (nodup_ids h) ha hb hab

/-- On a well-formed table, a row whose id got selected is itself eligible. -/
theorem eligible_of_id_mem_selectIds {s : List Query} (h : WF s) {ro : Bool}
    {now : Int} {r : Query} (hr : r ∈ s) (hid : r.id ∈ selectIds ro now s) :
    eligible ro now r = true := by
  obtain ⟨x, hx, helig, hxe⟩ := mem_selectIds hid
  rwa [eq_of_mem_of_id_eq h hx hr hxe] at helig

/-- On a well-formed table every returned row is the stamped copy of an
eligible pre-state row. -/
theorem runClaim_returned_eligible {s : List Query} (h : WF s) (ro : Bool) (now : Int) :
    ∀ q ∈ (runClaim ro now s).1,
      ∃ r, r ∈ s ∧ eligible ro now r = true ∧ q = claimStamp now r := by
  intro q hq
  obtain ⟨hmem, hcont⟩ := List.mem_filter.mp hq
  obtain ⟨r, hr, hqr⟩ := List.mem_map.mp hmem
  have hc2 : (selectIds ro now s).contains r.id = true := by
    rw [← applyClaim_id (selectIds ro now s) now r, hqr]
    exact hcont
  have hcr : r.id ∈ selectIds ro now s := by simpa using hc2
  exact ⟨r, hr, eligible_of_id_mem_selectIds h hr hcr,
    by rw [← hqr, applyClaim_of_contains now hc2]⟩

theorem runClaim_returned_run_once {s : List Query} (h : WF s) (ro : Bool) (now : Int) :
    ∀ q ∈ (runClaim ro now s).1, q.run_once = ro := by
  intro q hq
  obtain ⟨r, _, helig, hqr⟩ := runClaim_returned_eligible h ro now q hq
  rw [hqr]
  have hro := eligible_run_once helig
  exact hro

theorem runClaim_returned_next_run {s : List Query} (h : WF s) (ro : Bool) (now : Int) :
    ∀ q ∈ (runClaim ro now s).1, q.next_run < now := by
  intro q hq
  obtain ⟨r, _, helig, hqr⟩ := runClaim_returned_eligible h ro now q hq
  rw [hqr]
  have hnr := eligible_next_run helig
  exact hnr

/-- On a well-formed table a claim never touches a row of the other pool. -/
theorem runClaim_other_pool_unchanged {s : List Query} (h : WF s) (ro : Bool)
    (now : Int) (i : Nat) (hi : i < s.length) (hro : s[i].run_once ≠ ro) :
    (runClaim ro now s).2[i]? = some s[i] := by
  have hni : s[i].id ∉ selectIds ro now s := by
    intro hmem
    have helig := eligible_of_id_mem_selectIds h (List.getElem_mem hi) hmem
    exact hro (eligible_run_once helig)
  have hcf : (selectIds ro now s).contains s[i].id = false := by simpa using hni
  rw [runClaim_snd_getElem, List.getElem?_eq_getElem hi]
  simp [applyClaim_of_not_contains now hcf]

/-- A post-state row whose id was selected carries the lease stamp. -/
theorem mem_snd_marked {ro : Bool} {now : Int} {s : List Query} {r : Query}
    (hr : r ∈ (runClaim ro now s).2) (hid : r.id ∈ selectIds ro now s) :
    r.status = "in_progress" ∧ r.started_at = now := by
  obtain ⟨r0, _, hqr⟩ := List.mem_map.mp hr
  have hcr : (selectIds ro now s).contains r0.id = true := by
    have he : r0.id = r.id := by rw [← hqr, applyClaim_id]
    rw [he]
    simpa using hid
  have hq3 : r = claimStamp now r0 := by
    rw [← hqr, applyClaim_of_contains now hcr]
  exact ⟨by rw [hq3]; rfl, by rw [hq3]; rfl⟩

/-- The returned ids of a claim, in terms of the pre-state. -/
theorem runClaim_fst_ids (ro : Bool) (now : Int) (s : List Query) :
    (runClaim ro now s).1.map (fun q => q.id) =
      (s.filter (fun q => (selectIds ro now s).contains q.id)).map (fun q => q.id) := by
  show ((s.map (applyClaim (selectIds ro now s) now)).filter
      (fun q => (selectIds ro now s).contains q.id)).map (fun q => q.id) = _
  rw [filter_contains_map_applyClaim, List.map_map]
  apply List.map_congr_left
  intro q _
  exact applyClaim_id _ _ _

/-- The eligibility test depends on time only through its two comparisons. -/
theorem eligible_congr {now1 now2 : Int} {q : Query}
    (h1 : (q.next_run < now1) ↔ (q.next_run < now2))
    (h2 : (q.started_at < now1 - LEASE_DURATION) ↔
      (q.started_at < now2 - LEASE_DURATION))
    (ro : Bool) : eligible ro now1 q = eligible ro now2 q := by
  unfold eligible
  rw [decide_eq_decide.mpr h1, decide_eq_decide.mpr h2]

theorem selectIds_congr {ro : Bool} {now1 now2 : Int} {s : List Query}
    (he : ∀ q ∈ s, eligible ro now1 q = eligible ro now2 q) :
    selectIds ro now1 s = selectIds ro now2 s := by
  unfold selectIds
  rw [List.filter_congr he]

/-- The claim statements leave the invariant `Inv` intact. -/
theorem inv_runClaim {s : List Query} (h : Inv s) (ro : Bool) (now : Int) :
    Inv (runClaim ro now s).2 := by
  intro q hq hstat
  obtain ⟨r, hr, hqr⟩ := List.mem_map.mp hq
  by_cases hc : (selectIds ro now s).contains r.id = true
  · rw [← hqr, applyClaim_of_contains now hc] at hstat
    simp [claimStamp] at hstat
  · have hc2 : (selectIds ro now s).contains r.id = false := by
      simpa using hc
    rw [← hqr, applyClaim_of_not_contains now hc2] at hstat ⊢
    exact h r hr hstat

/-- A reschedule matching no row maps the table to itself. -/
theorem updateNextRun_nomatch (now qid : Int) (lg : String) (u : Int)
    (s : List Query) (h : ∀ q ∈ s, ¬(q.id = qid ∧ q.league = lg)) :
    (UpdateNextRun now qid lg u s).2 = s := by
  show List.map _ s = s
  have hmap : ∀ q ∈ s,
      (if q.id == qid && q.league == lg then
        { q with next_run := now + u * 3600, status := "queued", started_at := 0 }
      else q) = q := by
    intro q hq
    have hb : ¬((q.id == qid && q.league == lg) = true) := by
      simp only [Bool.and_eq_true, beq_iff_eq]
      exact h q hq
    rw [if_neg hb]
  calc List.map _ s = s.map id := List.map_congr_left hmap
    _ = s := List.map_id s

example :
    GetInfoQueries 1000 [⟨1, "a", "r", "L", "s", 24, 900, "queued", 0, true⟩] =
      ([⟨1, "a", "r", "L", "s", 24, 900, "in_progress", 1000, true⟩],
       [⟨1, "a", "r", "L", "s", 24, 900, "in_progress", 1000, true⟩]) := by decide

example :
    (GetInfoQueries 1000 [⟨1, "a", "r", "L", "s", 24, 1200, "queued", 0, true⟩]).1 = [] := by
  decide

example :
    (GetPriceQueries 1000 [⟨1, "a", "r", "L", "s", 24, 900, "queued", 0, true⟩]).1 = [] := by
  decide

example :
    (UpdateNextRun 1000 1 "L" 24 [⟨1, "a", "r", "L", "s", 24, 900, "in_progress", 999, false⟩]).2 =
      [⟨1, "a", "r", "L", "s", 24, 1000 + 24 * 3600, "queued", 0, false⟩] := by decide

example : (DeleteQuery 1 [⟨1, "a", "r", "L", "s", 24, 900, "queued", 0, true⟩]).2 = [] := by
  decide

/-! ### The claims -/

/-- C1: on a well-formed table, each claim call returns exactly the
eligible jobs of its pool — matching `run_once`, `next_run < now`, and
queued or leased with `started_at < now - 300` — as they stand after the
mutation, in strictly ascending id order and truncated to the four
smallest ids; a job with `next_run` in the future is never returned, and
with no eligible job the result is empty. -/
theorem c1_claim_eligible_batch (s : List Query) (now : Int) (h : WF s) :
    ((GetInfoQueries now s).1 =
        ((s.filter (eligible true now)).take 4).map (claimStamp now) ∧
      (GetPriceQueries now s).1 =
        ((s.filter (eligible false now)).take 4).map (claimStamp now)) ∧
    ((∀ q ∈ (GetInfoQueries now s).1, q.next_run < now) ∧
      ∀ q ∈ (GetPriceQueries now s).1, q.next_run < now) ∧
    ((s.filter (eligible true now) = [] → (GetInfoQueries now s).1 = []) ∧
      (s.filter (eligible false now) = [] → (GetPriceQueries now s).1 = [])) ∧
    (((GetInfoQueries now s).1.map (fun q => q.id)).Pairwise (fun a b => a < b) ∧
      ((GetPriceQueries now s).1.map (fun q => q.id)).Pairwise (fun a b => a < b)) := by
  have sorted : ∀ ro : Bool,
      ((runClaim ro now s).1.map (fun q => q.id)).Pairwise (fun a b => a < b) := by
    intro ro
    rw [runClaim_fst_eq ro now h, List.map_map]
    have hcomp : ((fun q : Query => q.id) ∘ claimStamp now) = fun q : Query => q.id := rfl
    rw [hcomp]
    refine List.Pairwise.map (fun q : Query => q.id) (fun a b hab => hab) ?_
    exact List.Pairwise.sublist
      ((List.take_sublist _ _).trans (List.filter_sublist s)) h
  refine ⟨⟨runClaim_fst_eq true now h, runClaim_fst_eq false now h⟩,
    ⟨runClaim_returned_next_run h true now, runClaim_returned_next_run h false now⟩,
    ⟨?_, ?_⟩, sorted true, sorted false⟩
  · intro hf
    show (runClaim true now s).1 = []
    rw [runClaim_fst_eq true now h, hf]
    rfl
  · intro hf
    show (runClaim false now s).1 = []
    rw [runClaim_fst_eq false now h, hf]
    rfl

/-- C1 witness: on the concrete table the one-shot claim at time 1000
returns precisely the stamped eligible prefix. -/
theorem c1_witness :
    WF store0 ∧
      (GetInfoQueries 1000 store0).1 =
        ((store0.filter (eligible true 1000)).take 4).map (claimStamp 1000) :=
  ⟨by unfold WF; decide, (c1_claim_eligible_batch store0 1000 (by unfold WF; decide)).1.1⟩

/-- C2: the very operation that selects a job also marks it: every
returned row shows `status = in_progress` and `started_at = now` and is
a row of the post state, while a row whose id was not returned keeps its
exact pre-state. -/
theorem c2_claim_marks_in_same_operation (s : List Query) (now : Int) :
    ((∀ q ∈ (GetInfoQueries now s).1,
        q.status = "in_progress" ∧ q.started_at = now ∧ q ∈ (GetInfoQueries now s).2) ∧
      ∀ q ∈ (GetPriceQueries now s).1,
        q.status = "in_progress" ∧ q.started_at = now ∧ q ∈ (GetPriceQueries now s).2) ∧
    ∀ i : Nat, ∀ hi : i < s.length,
      (s[i].id ∉ (GetInfoQueries now s).1.map (fun q => q.id) →
        (GetInfoQueries now s).2[i]? = some s[i]) ∧
      (s[i].id ∉ (GetPriceQueries now s).1.map (fun q => q.id) →
        (GetPriceQueries now s).2[i]? = some s[i]) :=
  ⟨⟨runClaim_returned_marked true now s, runClaim_returned_marked false now s⟩,
    fun i hi => ⟨runClaim_unselected_unchanged true now s i hi,
      runClaim_unselected_unchanged false now s i hi⟩⟩

/-- C2 witness: the claim at time 1000 returns the stamped copy of the
due one-shot job, and every returned row carries the stamp. -/
theorem c2_witness :
    (GetInfoQueries 1000 store0).1 = [claimStamp 1000 jobA] ∧
      ∀ q ∈ (GetInfoQueries 1000 store0).1,
        q.status = "in_progress" ∧ q.started_at = 1000 ∧
          q ∈ (GetInfoQueries 1000 store0).2 :=
  ⟨by decide, (c2_claim_marks_in_same_operation store0 1000).1.1⟩

/-- C3: two claim calls against the same pool — serialised in the order
their atomic statements hit the store, with clock readings within one
lease window of each other, as overlapping calls are — return disjoint
id sets. -/
theorem c3_no_double_claim (s : List Query) (ro : Bool) (now1 now2 : Int)
    (h : now2 ≤ now1 + LEASE_DURATION) :
    ∀ j, j ∈ (runClaim ro now1 s).1.map (fun q => q.id) →
      j ∉ (runClaim ro now2 (runClaim ro now1 s).2).1.map (fun q => q.id) := by
  intro j hj1 hj2
  have hid1 : j ∈ selectIds ro now1 s := returned_subset_selectIds ro now1 s hj1
  have hid2 : j ∈ selectIds ro now2 (runClaim ro now1 s).2 :=
    returned_subset_selectIds ro now2 _ hj2
  obtain ⟨r, hr, helig, hre⟩ := mem_selectIds hid2
  have hmark : r.status = "in_progress" ∧ r.started_at = now1 := by
    apply mem_snd_marked hr
    rw [hre]
    exact hid1
  rcases eligible_status helig with hq | ⟨_, hlt⟩
  · rw [hmark.1] at hq
    exact absurd hq (by decide)
  · rw [hmark.2] at hlt
    have hld : LEASE_DURATION = 300 := rfl
    omega

/-- C3 witness: on the concrete table a second one-shot claim 100
seconds after the first returns no id of the first. -/
theorem c3_witness :
    (1100 : Int) ≤ 1000 + LEASE_DURATION ∧
      ∀ j, j ∈ (runClaim true 1000 store0).1.map (fun q => q.id) →
        j ∉ (runClaim true 1100 (runClaim true 1000 store0).2).1.map (fun q => q.id) :=
  ⟨by decide, c3_no_double_claim store0 true 1000 1100 (by decide)⟩

/-- C7: a claim call never returns a job of the other pool and never
mutates a row of the other pool, even when that row meets every other
eligibility condition. -/
theorem c7_pool_isolation (s : List Query) (now : Int) (h : WF s) :
    ((∀ q ∈ (GetPriceQueries now s).1, q.run_once = false) ∧
      ∀ q ∈ (GetInfoQueries now s).1, q.run_once = true) ∧
    ∀ i : Nat, ∀ hi : i < s.length,
      (s[i].run_once = true → (GetPriceQueries now s).2[i]? = some s[i]) ∧
      (s[i].run_once = false → (GetInfoQueries now s).2[i]? = some s[i]) := by
  refine ⟨⟨runClaim_returned_run_once h false now, runClaim_returned_run_once h true now⟩, ?_⟩
  intro i hi
  constructor
  · intro ht
    exact runClaim_other_pool_unchanged h false now i hi (by simp [ht])
  · intro hf
    exact runClaim_other_pool_unchanged h true now i hi (by simp [hf])

/-- C7 witness: at time 1000 both jobs with `next_run` in the past are
due, yet the recurring claim returns only recurring jobs. -/
theorem c7_witness :
    WF store0 ∧ ∀ q ∈ (GetPriceQueries 1000 store0).1, q.run_once = false :=
  ⟨by unfold WF; decide, (c7_pool_isolation store0 1000 (by unfold WF; decide)).1.1⟩

/-- C10: a claim mutates only `status` and `started_at` of the rows it
returns — each returned row agrees with a pre-state row on id, item_id,
realm, league, search_query, update_interval, next_run and run_once —
and every row whose id is not among the returned ids is entirely
unchanged. -/
theorem c10_claim_frame (s : List Query) (now : Int) :
    ((∀ q ∈ (GetInfoQueries now s).1, ∃ r, r ∈ s ∧
        q.id = r.id ∧ q.item_id = r.item_id ∧ q.realm = r.realm ∧ q.league = r.league ∧
        q.search_query = r.search_query ∧ q.update_interval = r.update_interval ∧
        q.next_run = r.next_run ∧ q.run_once = r.run_once) ∧
      ∀ q ∈ (GetPriceQueries now s).1, ∃ r, r ∈ s ∧
        q.id = r.id ∧ q.item_id = r.item_id ∧ q.realm = r.realm ∧ q.league = r.league ∧
        q.search_query = r.search_query ∧ q.update_interval = r.update_interval ∧
        q.next_run = r.next_run ∧ q.run_once = r.run_once) ∧
    ∀ i : Nat, ∀ hi : i < s.length,
      (s[i].id ∉ (GetInfoQueries now s).1.map (fun q => q.id) →
        (GetInfoQueries now s).2[i]? = some s[i]) ∧
      (s[i].id ∉ (GetPriceQueries now s).1.map (fun q => q.id) →
        (GetPriceQueries now s).2[i]? = some s[i]) :=
  ⟨⟨runClaim_returned_fields true now s, runClaim_returned_fields false now s⟩,
    fun i hi => ⟨runClaim_unselected_unchanged true now s i hi,
      runClaim_unselected_unchanged false now s i hi⟩⟩

/-- C10 witness: at time 600 the one-shot claim returns the stamped due
job; the leased recurring job at index 1 and the future job at index 2
are untouched. -/
theorem c10_witness :
    (GetInfoQueries 600 store0).1 = [claimStamp 600 jobA] ∧
      ((GetInfoQueries 600 store0).2[1]? = some jobB ∧
        (GetInfoQueries 600 store0).2[2]? = some jobC) ∧
      ∀ q ∈ (GetInfoQueries 600 store0).1, ∃ r, r ∈ store0 ∧
        q.id = r.id ∧ q.item_id = r.item_id ∧ q.realm = r.realm ∧ q.league = r.league ∧
        q.search_query = r.search_query ∧ q.update_interval = r.update_interval ∧
        q.next_run = r.next_run ∧ q.run_once = r.run_once :=
  ⟨by decide, by decide, (c10_claim_frame store0 600).1.1⟩

/-- C4 counterexample: `store0` holds a row with id 2 and league
"Standard"; rescheduling id 2 with the stale league "Hardcore" leaves
every row unchanged but answers the success value, not NotFound — the
handler never inspects the affected-row count. -/
theorem c4_counterexample :
    (∃ q ∈ store0, q.id = 2) ∧
      (UpdateNextRun 1000 2 "Hardcore" 12 store0).1 = RpcResult.ok ∧
      RpcResult.ok ≠ RpcResult.notFound ∧
      (UpdateNextRun 1000 2 "Hardcore" 12 store0).2 = store0 :=
  ⟨⟨jobB, by decide, by decide⟩, rfl, by decide, by decide⟩

/-- C4 amended: a reschedule whose id and league match no row is a
no-op on the table — the targeted row's status, started_at and next_run
are untouched and no other row is mutated — but it returns the success
value; the code never signals NotFound. -/
theorem c4_league_mismatch_noop (s : List Query) (now qid : Int) (lg : String)
    (u : Int) (h : ∀ q ∈ s, ¬(q.id = qid ∧ q.league = lg)) :
    (UpdateNextRun now qid lg u s).1 = RpcResult.ok ∧
      (UpdateNextRun now qid lg u s).2 = s :=
  ⟨rfl, updateNextRun_nomatch now qid lg u s h⟩

/-- C4 witness: the stale-league reschedule against the concrete table
leaves it intact. -/
theorem c4_witness :
    (∀ q ∈ store0, ¬(q.id = 2 ∧ q.league = "Hardcore")) ∧
      (UpdateNextRun 1000 2 "Hardcore" 12 store0).2 = store0 :=
  ⟨by decide, (c4_league_mismatch_noop store0 1000 2 "Hardcore" 12 (by decide)).2⟩

/-- C5 counterexample: no row of `store0` has id 99, yet deleting id 99
answers the success value, not NotFound — the handler never inspects the
affected-row count. -/
theorem c5_counterexample :
    (∀ q ∈ store0, q.id ≠ 99) ∧
      (DeleteQuery 99 store0).1 = RpcResult.ok ∧
      RpcResult.ok ≠ RpcResult.notFound ∧
      (DeleteQuery 99 store0).2 = store0 :=
  ⟨by decide, rfl, by decide, by decide⟩

/-- C5 amended: delete permanently removes every row carrying the given
id and keeps all others, and it always answers the success value — also
when no row with that id exists, in which case the table is unchanged;
NotFound is never signalled. -/
theorem c5_delete_always_ok (qid : Int) (s : List Query) :
    (DeleteQuery qid s).1 = RpcResult.ok ∧
      (∀ q ∈ (DeleteQuery qid s).2, q.id ≠ qid) ∧
      (∀ q ∈ s, q.id ≠ qid → q ∈ (DeleteQuery qid s).2) ∧
      ((∀ q ∈ s, q.id ≠ qid) → (DeleteQuery qid s).2 = s) := by
  refine ⟨rfl, ?_, ?_, ?_⟩
  · intro q hq
    have hc := (List.mem_filter.mp hq).2
    simpa using hc
  · intro q hq hne
    exact List.mem_filter.mpr ⟨hq, by simpa using hne⟩
  · intro hall
    apply List.filter_eq_self.mpr
    intro q hq
    simpa using hall q hq

/-- C5 witness: deleting id 1 removes exactly that row and the remaining
rows carry other ids. -/
theorem c5_witness :
    (DeleteQuery 1 store0).2 = [jobB, jobC] ∧
      ∀ q ∈ (DeleteQuery 1 store0).2, q.id ≠ 1 :=
  ⟨by decide, (c5_delete_always_ok 1 store0).2.1⟩

/-- C6: a reschedule whose id and league both match row `i` rewrites that
row to `next_run = now + update_interval` hours (3600 s each),
`status = queued` and `started_at = 0`, releasing the lease and leaving
its other columns unchanged. -/
theorem c6_reschedule_match (s : List Query) (now qid : Int) (lg : String) (u : Int)
    (i : Nat) (hi : i < s.length) (hm : s[i].id = qid ∧ s[i].league = lg) :
    (UpdateNextRun now qid lg u s).2[i]? =
      some { s[i] with next_run := now + u * 3600, status := "queued", started_at := 0 } := by
  have hb : (s[i].id == qid && s[i].league == lg) = true := by
    simp [hm.1, hm.2]
  show (List.map _ s)[i]? = _
  rw [List.getElem?_map, List.getElem?_eq_getElem hi]
  simp only [Option.map_some']
  rw [if_pos hb]

/-- C6 witness: rescheduling the leased recurring job (id 2, league
"Standard", 12-hour interval) at time 1000 requeues it for 1000 + 43200. -/
theorem c6_witness :
    (UpdateNextRun 1000 2 "Standard" 12 store0).2[1]? =
      some ⟨2, "itemB", "poe2", "Standard", "qb", 12, 1000 + 12 * 3600, "queued", 0, false⟩ := by
  have h := c6_reschedule_match store0 1000 2 "Standard" 12 1 (by decide) (by decide)
  simpa [store0, jobB] using h

/-- C8: every store operation — insert, both claims, reschedule, delete —
preserves the invariant that a queued row has `started_at = 0`. -/
theorem c8_invariant_preserved (s : List Query) (h : Inv s) (now qid newId u nr : Int)
    (lg item realm sq : String) (ro : Bool) :
    Inv (InsertQuery newId item realm lg sq u nr ro s) ∧
      Inv (GetInfoQueries now s).2 ∧ Inv (GetPriceQueries now s).2 ∧
      Inv (UpdateNextRun now qid lg u s).2 ∧ Inv (DeleteQuery qid s).2 := by
  refine ⟨?_, inv_runClaim h true now, inv_runClaim h false now, ?_, ?_⟩
  · intro q hq hstat
    rcases List.mem_append.mp hq with hmem | hmem
    · exact h q hmem hstat
    · obtain rfl := List.mem_singleton.mp hmem
      rfl
  · intro q hq hstat
    obtain ⟨r, hr, hqr⟩ := List.mem_map.mp hq
    by_cases hb : (r.id == qid && r.league == lg) = true
    · rw [← hqr]
      show (if r.id == qid && r.league == lg then _ else r).started_at = 0
      rw [if_pos hb]
    · rw [← hqr] at hstat ⊢
      show (if r.id == qid && r.league == lg then _ else r).started_at = 0
      rw [if_neg hb] at hstat ⊢
      exact h r hr hstat
  · intro q hq hstat
    exact h q (List.mem_of_mem_filter hq) hstat

/-- C8 witness: the invariant holds on the concrete table and survives a
claim. -/
theorem c8_witness :
    Inv store0 ∧ Inv (GetInfoQueries 1000 store0).2 :=
  ⟨by unfold Inv; decide,
    (c8_invariant_preserved store0 (by unfold Inv; decide) 1000 2 7 12 900
      "Standard" "itemX" "poe2" "qx" true).2.1⟩

/-- C9 counterexample: the handlers read the server clock internally
(`time.Now()`), so the same store and the same (empty) request give
different results — and reschedule different post-states — at different
execution times, refuting "the same jobs regardless of when they
execute". -/
theorem c9_counterexample :
    (GetInfoQueries 400 store0).1 = [] ∧
      (GetInfoQueries 600 store0).1 ≠ [] ∧
      (UpdateNextRun 0 2 "Standard" 12 store0).2 ≠
        (UpdateNextRun 1 2 "Standard" 12 store0).2 :=
  ⟨by decide, by decide, by decide⟩

/-- C9 amended: claim and reschedule depend on the store state, the
caller-supplied inputs and the server clock read inside the call; the
clock enters the claim selection only through the comparisons
`next_run < now` and `started_at < now - 300`, so two executions whose
clock readings classify every row identically return the same job ids,
and reschedule's returned code never depends on the clock. -/
theorem c9_clock_dependence (s : List Query) (now1 now2 : Int)
    (h : ∀ q ∈ s, ((q.next_run < now1) ↔ (q.next_run < now2)) ∧
      ((q.started_at < now1 - LEASE_DURATION) ↔
        (q.started_at < now2 - LEASE_DURATION))) :
    ((GetInfoQueries now1 s).1.map (fun q => q.id) =
        (GetInfoQueries now2 s).1.map (fun q => q.id)) ∧
      ((GetPriceQueries now1 s).1.map (fun q => q.id) =
        (GetPriceQueries now2 s).1.map (fun q => q.id)) ∧
      ∀ qid u : Int, ∀ lg : String,
        (UpdateNextRun now1 qid lg u s).1 = (UpdateNextRun now2 qid lg u s).1 := by
  have he : ∀ ro : Bool, ∀ q ∈ s, eligible ro now1 q = eligible ro now2 q :=
    fun ro q hq => eligible_congr (h q hq).1 (h q hq).2 ro
  refine ⟨?_, ?_, fun _ _ _ => rfl⟩
  · show (runClaim true now1 s).1.map (fun q => q.id) =
      (runClaim true now2 s).1.map (fun q => q.id)
    rw [runClaim_fst_ids, runClaim_fst_ids, selectIds_congr (he true)]
  · show (runClaim false now1 s).1.map (fun q => q.id) =
      (runClaim false now2 s).1.map (fun q => q.id)
    rw [runClaim_fst_ids, runClaim_fst_ids, selectIds_congr (he false)]

/-- C9 witness: 600 and 700 classify every row of the concrete table
identically, and the one-shot claims at those times return the same ids. -/
theorem c9_witness :
    (∀ q ∈ store0, ((q.next_run < 600) ↔ (q.next_run < 700)) ∧
        ((q.started_at < 600 - LEASE_DURATION) ↔
          (q.started_at < 700 - LEASE_DURATION))) ∧
      (GetInfoQueries 600 store0).1.map (fun q => q.id) =
        (GetInfoQueries 700 store0).1.map (fun q => q.id) :=
  ⟨by decide, (c9_clock_dependence store0 600 700 (by decide)).1⟩

end RDPC
